import Mathlib

/-!
Shallow embedding of the client-side core of dingo-store:
the leader-aware channel manager (`CoordinatorInteraction`), the benchmark
operation driver (`src/benchmark/operation.cc`), and the SDK vector-index
cache response check (`src/sdk/vector/vector_index_cache.h`).

Machine integers are modelled as `Nat` (all the quantities involved are
non-negative counters, sizes and indices; C++ conversions that matter are
noted at each definition).  Remote calls and random sources are modelled as
explicit oracles (functions supplying the status / random draws the real
calls would produce), so every definition is executable.  Wall-clock
measurements (`Helper::TimestampUs`) are not represented: they do not affect
any key, status or control-flow decision.
-/

namespace DingoStore

/-! ### Statuses

`sdk::Status` / `butil::Status` carry an ok/error distinction plus a payload;
only `IsOK()`/`ok()` is inspected by the embedded code, and "the first
failing status is propagated unchanged" needs error identity, so we keep an
error code. -/

inductive Status where
  | ok : Status
  | err : Nat → Status
deriving DecidableEq, Repr

def Status.isOk : Status → Bool
  | .ok => true
  | .err _ => false

/-! ### CoordinatorInteraction (src/coordinator/coordinator_interaction.cc)

`leader_index_` is an atomic int; `NextLeader` performs
`leader_index_.compare_exchange_weak(leader_index, (leader_index+1) % N)`.
The compare-and-swap is modelled as an atomic step on the current value of
the leader pointer: it writes `(observed+1) % n` exactly when the current
value equals the observed value, and leaves the pointer unchanged
otherwise.  `n` is `endpoints_.size()` (non-empty after a successful
`Init`). -/

def NextLeader (n : Nat) (cur observed : Nat) : Nat :=
  if cur = observed then (observed + 1) % n else cur

/-- State `iterNextLeader n i k`: the leader pointer after `k` sequential
`NextLeader(i)` calls (any interleaving of concurrent CAS attempts that all
observed the same stale index `i`), starting from leader pointer `i`. -/
def iterNextLeader (n i : Nat) : Nat → Nat
  | 0 => i
  | k + 1 => NextLeader n (iterNextLeader n i k) i

/-! ### Benchmark operation driver (src/benchmark/operation.cc) — data model -/

/-- Mirror of `sdk::KVPair`. -/
structure KVPair where
  key : String
  value : String
deriving DecidableEq, Repr

/-- Per-shard state `RegionEntry` — key-range prefix string, shared
monotonic counter, materialized key list, read cursor.  The C++ fields are
`prefix` (std::string), `counter` (std::atomic<size_t>), `keys`
(std::vector<std::string>), `read_index`. -/
structure RegionEntry where
  pfx : String
  counter : Nat
  keys : List String
  read_index : Nat
deriving DecidableEq, Repr

/-- Key encoding: `kClientRaw = "w"`; `EncodeRawKey(str) = kClientRaw + str`. -/
def EncodeRawKey (str : String) : String := "w" ++ str

/-- The 36-character alphanumeric alphabet `kAlphabet`. -/
def kAlphabet : List Char :=
  ['a', 'b', 'c', 'd', 'e', 'f', 'g', 'h', 'i', 'j', 'k', 'l',
   'm', 'n', 'o', 'p', 'q', 'r', 's', 't', 'u', 'v', 'w', 'x',
   'y', 'z', '0', '1', '2', '3', '4', '5', '6', '7', '8', '9']

/-- Random values: `GenRandomString(len)` makes `len` draws from a uniform RNG, each reduced
modulo 36 into `kAlphabet`.  The RNG is modelled as an oracle `src` giving
the `i`-th draw of this call. -/
def GenRandomString (src : Nat → Nat) (len : Nat) : String :=
  String.mk ((List.range len).map fun i => kAlphabet.getD (src i % kAlphabet.length) 'a')

/-- Sequential keys: `GenSeqString(num, len) = fmt::format("{0:0{1}}", num, len)` is the decimal
representation of `num`, left-padded with `'0'` to a minimum width of `len`
(numbers with more than `len` digits are printed in full). -/
def GenSeqString (num len : Nat) : String :=
  String.mk (List.replicate (len - (Nat.repr num).length) '0' ++ (Nat.repr num).data)

/-! ### Transaction driver (BaseOperation::KvTxn* paths)

Each transactional operation performs: `client->NewTransaction`, a middle
phase (Put per pair / one BatchPut / Get per key / BatchGet per group),
`txn->PreCommit()`, `txn->Commit()`, with `goto end` on the first non-OK
status, and `delete txn` at the single `end:` label on every path.  The
remote side is an oracle (`TxnStub`) giving the status of each call; the
trace of calls actually issued is recorded as a list of events, with
`releaseE` standing for the `delete txn` statement. -/

structure TxnStub where
  newTxn : Status
  put : String → String → Status
  batchPut : List KVPair → Status
  get : String → Status
  batchGet : List String → Status
  preCommit : Status
  commit : Status

inductive Event where
  | newTxnE
  | putE (k v : String)
  | batchPutE (kvs : List KVPair)
  | getE (k : String)
  | batchGetE (ks : List String)
  | preCommitE
  | commitE
  | releaseE
deriving DecidableEq, Repr

/-- A `for`-loop of fallible calls with `goto end` on the first failure:
issues one call per element, stops after the first non-OK status. -/
def seqCalls (f : α → Status) (ev : α → Event) : List α → Status × List Event
  | [] => (Status.ok, [])
  | x :: xs =>
    let st := f x
    if st.isOk then
      let r := seqCalls f ev xs
      (r.1, ev x :: r.2)
    else (st, [ev x])

/-- The shared `NewTransaction; <middle>; PreCommit; Commit; end: delete txn`
skeleton of the four KvTxn operations, with `mid` the status/trace of the
middle phase. -/
def runTxn (s : TxnStub) (mid : Status × List Event) : Status × List Event :=
  let st := s.newTxn
  if st.isOk then
    if mid.1.isOk then
      let stp := s.preCommit
      if stp.isOk then
        (s.commit, Event.newTxnE :: mid.2 ++ [Event.preCommitE, Event.commitE, Event.releaseE])
      else (stp, Event.newTxnE :: mid.2 ++ [Event.preCommitE, Event.releaseE])
    else (mid.1, Event.newTxnE :: mid.2 ++ [Event.releaseE])
  else (st, [Event.newTxnE, Event.releaseE])

/-- Model of `BaseOperation::KvTxnPut(kvs)`: one `txn->Put` per pair. -/
def KvTxnPut (s : TxnStub) (kvs : List KVPair) : Status × List Event :=
  runTxn s (seqCalls (fun kv => s.put kv.key kv.value) (fun kv => Event.putE kv.key kv.value) kvs)

/-- Model of `BaseOperation::KvTxnBatchPut(kvs)`: one `txn->BatchPut` call. -/
def KvTxnBatchPut (s : TxnStub) (kvs : List KVPair) : Status × List Event :=
  runTxn s (seqCalls s.batchPut Event.batchPutE [kvs])

/-- Model of `BaseOperation::KvTxnGet(keys)`: one `txn->Get` per key. -/
def KvTxnGet (s : TxnStub) (keys : List String) : Status × List Event :=
  runTxn s (seqCalls s.get Event.getE keys)

/-- Model of `BaseOperation::KvTxnBatchGet(keys)`: one `txn->BatchGet` per group. -/
def KvTxnBatchGet (s : TxnStub) (groups : List (List String)) : Status × List Event :=
  runTxn s (seqCalls s.batchGet Event.batchGetE groups)

/-- The error-handling contract of one transactional operation `r` with
middle phase `mid` against stub `s`: the handle is released exactly once on
every path; failure to open skips everything; a middle-phase failure skips
PreCommit and Commit; a PreCommit failure skips Commit; the first failing
status is the result status, unchanged. -/
def TxnAbortContract (s : TxnStub) (mid r : Status × List Event) : Prop :=
  r.2.count Event.releaseE = 1 ∧
  (s.newTxn.isOk = false →
    r.1 = s.newTxn ∧ r.2 = [Event.newTxnE, Event.releaseE]) ∧
  (s.newTxn.isOk = true → mid.1.isOk = false →
    r.1 = mid.1 ∧ Event.preCommitE ∉ r.2 ∧ Event.commitE ∉ r.2) ∧
  (s.newTxn.isOk = true → mid.1.isOk = true → s.preCommit.isOk = false →
    r.1 = s.preCommit ∧ Event.commitE ∉ r.2) ∧
  (s.newTxn.isOk = true → mid.1.isOk = true → s.preCommit.isOk = true →
    r.1 = s.commit)

/-- A concrete stub for the C2 witness: opening and `PreCommit`/`Commit`
succeed, `Put`/`Get` fail on key "k2" with error 7, `BatchGet` fails on the
group `["g"]` with error 9, `BatchPut` succeeds. -/
def stubEx : TxnStub where
  newTxn := Status.ok
  put := fun k _ => if k = "k2" then Status.err 7 else Status.ok
  batchPut := fun _ => Status.ok
  get := fun k => if k = "k2" then Status.err 7 else Status.ok
  batchGet := fun g => if g = ["g"] then Status.err 9 else Status.ok
  preCommit := Status.err 3
  commit := Status.ok

/-! ### Decimal strings: `GenSeqString` is injective and has predictable
length.  `Nat.repr` is decoded back by a left fold over the digit
characters; leading `'0'` padding does not change the decoded value. -/

/-- Decimal decode of a digit-character list (left fold, accumulator
seeded). -/
def decDigits (acc : Nat) : List Char → Nat
  | [] => acc
  | c :: cs => decDigits (acc * 10 + (c.toNat - 48)) cs

/-! ### Arrange (ReadOperation::Arrange / TxnReadOperation::Arrange)

Both arrange loops are identical apart from which batched-write entry point
they call (`raw_kv->BatchPut` vs the transactional `KvTxnBatchPut`); the
write is abstracted as a success oracle `bput` on the submitted batch.  Per
loop iteration `i < n`: fetch-and-add the shard counter, generate the key
`EncodeRawKey(prefix + GenSeqString(count, key_size - prefix.size()))` and
a random value (`valOf i`), push the pair into the pending buffer `kvs` AND
the key into the shard's key list, and when `(i+1) % 256 == 0 || i+1 == n`
submit the pending buffer: on failure return `false` at once, otherwise
clear the buffer and continue.  `submitted` records the batches handed to
`bput`, in order — the audit of which batch writes were attempted. -/

structure ArrangeResult where
  ok : Bool
  keys : List String
  submitted : List (List KVPair)
  counter : Nat
deriving DecidableEq, Repr

def arrangeGo (bput : List KVPair → Bool) (valOf : Nat → String) (pfx : String)
    (random_str_len n : Nat) :
    Nat → Nat → Nat → List KVPair → List String → List (List KVPair) → ArrangeResult
  | 0, _, counter, _, keys, submitted => ⟨true, keys, submitted, counter⟩
  | rem + 1, i, counter, kvs, keys, submitted =>
    let kv : KVPair := ⟨EncodeRawKey (pfx ++ GenSeqString counter random_str_len), valOf i⟩
    let kvs' := kvs ++ [kv]
    let keys' := keys ++ [kv.key]
    if (i + 1) % 256 = 0 ∨ i + 1 = n then
      if bput kvs' then
        arrangeGo bput valOf pfx random_str_len n rem (i + 1) (counter + 1) [] keys'
          (submitted ++ [kvs'])
      else ⟨false, keys', submitted ++ [kvs'], counter + 1⟩
    else
      arrangeGo bput valOf pfx random_str_len n rem (i + 1) (counter + 1) kvs' keys' submitted

/-- Top-level `Arrange` on a region entry: `n = FLAGS_arrange_kv_num` iterations
starting from the entry's current counter and key list. -/
def Arrange (bput : List KVPair → Bool) (valOf : Nat → String) (keySize n : Nat)
    (e : RegionEntry) : ArrangeResult :=
  arrangeGo bput valOf e.pfx (keySize - e.pfx.length) n n 0 e.counter [] e.keys []

/-- What a (possibly failed) arrange leaves behind: the shard's key list
holds exactly the keys of every batch handed to the write oracle — the
successful ones and, on failure, the failed batch as well; on failure the
last submitted batch is the failed one and every earlier submitted batch
succeeded (no batch after the failure is attempted: `submitted` is the
complete audit of `bput` calls). -/
def ArrangeInv (bput : List KVPair → Bool) (r : ArrangeResult) : Prop :=
  r.keys = (r.submitted.flatten).map KVPair.key ∧
  (r.ok = true → ∀ b ∈ r.submitted, bput b = true) ∧
  (r.ok = false → ∃ pre last, r.submitted = pre ++ [last] ∧ bput last = false ∧
    ∀ b ∈ pre, bput b = true)

/-! ### Sequential read paths

`ReadSeqOperation::Execute` (raw) and `TxnReadSeqOperation::Execute`
(transactional) read `keys[read_index++ % keys.size()]`.  A modulo by a
zero `keys.size()` is C++ undefined behaviour (integer division by zero)
and is modelled as `none`. -/

/-- One single-key sequential read (`keys[region_entry->read_index++ %
keys.size()]` on the region's key list): the key read and the updated
entry. -/
def readSeqStep (e : RegionEntry) : Option (String × RegionEntry) :=
  if e.keys.length = 0 then none
  else
    some (e.keys.getD (e.read_index % e.keys.length) "",
      { e with read_index := e.read_index + 1 })

/-- The region entry after `t` single-key sequential reads. -/
def readIter (e : RegionEntry) : Nat → RegionEntry
  | 0 => e
  | t + 1 =>
    match readSeqStep (readIter e t) with
    | some (_, e') => e'
    | none => readIter e t

/-- The key returned by the `(t+1)`-th single-key sequential read. -/
def nthReadKey (e : RegionEntry) (t : Nat) : Option String :=
  (readSeqStep (readIter e t)).map Prod.fst

/-- The batched path of `ReadSeqOperation::Execute`: the local
`std::vector<std::string> keys` declared inside the `else` branch SHADOWS
the region's key list, so every iteration reads
`keys[read_index++ % keys.size()]` from the still-empty local vector. -/
def readSeqShadowLoop (localKeys : List String) (ri : Nat) : Nat → Option (List String × Nat)
  | 0 => some (localKeys, ri)
  | b + 1 =>
    if localKeys.length = 0 then none
    else
      readSeqShadowLoop (localKeys ++ [localKeys.getD (ri % localKeys.length) ""]) (ri + 1) b

/-- Model of `ReadSeqOperation::Execute`: single-key raw `KvGet` when
`FLAGS_batch_size <= 1`, otherwise the (shadowed) batched loop feeding
`KvBatchGet`.  Returns the keys submitted to the raw read and the updated
entry. -/
def ReadSeqExecute (batchSize : Nat) (e : RegionEntry) : Option (List String × RegionEntry) :=
  if batchSize ≤ 1 then
    (readSeqStep e).map fun r => ([r.1], r.2)
  else
    (readSeqShadowLoop [] e.read_index batchSize).map fun r =>
      (r.1, { e with read_index := r.2 })

/-- The batched path of `TxnReadSeqOperation::Execute` pushes into a
separate `batch_keys` vector, reading from the region's key list. -/
def txnReadSeqLoop (keys : List String) (batchKeys : List String) (ri : Nat) :
    Nat → Option (List String × Nat)
  | 0 => some (batchKeys, ri)
  | b + 1 =>
    if keys.length = 0 then none
    else txnReadSeqLoop keys (batchKeys ++ [keys.getD (ri % keys.length) ""]) (ri + 1) b

/-- Model of `TxnReadSeqOperation::Execute` (single-region overload): single-key
`KvTxnGet` when `FLAGS_batch_size <= 1`, otherwise `batch_keys` fed to
`KvTxnBatchGet`. -/
def TxnReadSeqExecute (batchSize : Nat) (e : RegionEntry) : Option (List String × RegionEntry) :=
  if batchSize ≤ 1 then
    (readSeqStep e).map fun r => ([r.1], r.2)
  else
    (txnReadSeqLoop e.keys [] e.read_index batchSize).map fun r =>
      (r.1, { e with read_index := r.2 })

/-- The C5 scenario: arrange a fresh shard with prefix `"P"`, key size 8,
`n = 1000`, all batch writes succeeding (`valOf` supplies the random
values, which do not influence the keys). -/
def arrangeP (valOf : Nat → String) : ArrangeResult :=
  Arrange (fun _ => true) valOf 8 1000 ⟨"P", 0, [], 0⟩

/-! ### Non-transactional puts (BaseOperation::KvPut / KvBatchPut) -/

/-- Outcome of a raw put: the status from the raw KV service, the bytes
counted, and the pairs written. -/
structure PutOutcome where
  status : Status
  write_bytes : Nat
  kvs : List KVPair
deriving DecidableEq, Repr

/-- Model of `BaseOperation::KvPut`: `counter.fetch_add(1)` happens before the
`is_random` branch, so the counter advances whether or not the fetched
value is used; the fetched value is used only for the sequential key. -/
def KvPut (srcK srcV : Nat → Nat) (keySize valueSize : Nat) (st : Status)
    (e : RegionEntry) (is_random : Bool) : PutOutcome × RegionEntry :=
  let random_str_len := keySize - e.pfx.length
  let count := e.counter
  let key :=
    if is_random then EncodeRawKey (e.pfx ++ GenRandomString srcK random_str_len)
    else EncodeRawKey (e.pfx ++ GenSeqString count random_str_len)
  let value := GenRandomString srcV valueSize
  (⟨st, key.length + value.length, [⟨key, value⟩]⟩,
    { e with counter := e.counter + 1 })

/-- The `for (i < FLAGS_batch_size)` loop of `KvBatchPut`:
`counter.fetch_add(1)` is executed only in the non-random branch. -/
def kvBatchPutLoop (srcK srcV : Nat → Nat → Nat) (pfx : String)
    (random_str_len valueSize : Nat) (is_random : Bool) :
    Nat → Nat → Nat → List KVPair → List KVPair × Nat
  | 0, _, counter, kvs => (kvs, counter)
  | rem + 1, i, counter, kvs =>
    if is_random then
      let kv : KVPair := ⟨EncodeRawKey (pfx ++ GenRandomString (srcK i) random_str_len),
        GenRandomString (srcV i) valueSize⟩
      kvBatchPutLoop srcK srcV pfx random_str_len valueSize is_random rem (i + 1) counter
        (kvs ++ [kv])
    else
      let kv : KVPair := ⟨EncodeRawKey (pfx ++ GenSeqString counter random_str_len),
        GenRandomString (srcV i) valueSize⟩
      kvBatchPutLoop srcK srcV pfx random_str_len valueSize is_random rem (i + 1) (counter + 1)
        (kvs ++ [kv])

/-- Model of `BaseOperation::KvBatchPut`: build `FLAGS_batch_size` pairs, then one
raw `BatchPut`. -/
def KvBatchPut (srcK srcV : Nat → Nat → Nat) (keySize valueSize batchSize : Nat)
    (st : Status) (e : RegionEntry) (is_random : Bool) : PutOutcome × RegionEntry :=
  let r := kvBatchPutLoop srcK srcV e.pfx (keySize - e.pfx.length) valueSize is_random
    batchSize 0 e.counter []
  (⟨st, (r.1.map fun kv => kv.key.length + kv.value.length).sum, r.1⟩,
    { e with counter := r.2 })

/-! ### Single-vs-batched path dispatch (C6)

The `Execute` bodies select the path with `FLAGS_batch_size == 1` (all fill
operations) or `FLAGS_batch_size <= 1` (all read operations). -/

inductive PathKind where
  | single
  | batched
deriving DecidableEq, Repr

def FillSeqPath (b : Nat) : PathKind := if b = 1 then .single else .batched

def FillRandomPath (b : Nat) : PathKind := if b = 1 then .single else .batched

def FillTxnSeqPath (b : Nat) : PathKind := if b = 1 then .single else .batched

def FillTxnRandomPath (b : Nat) : PathKind := if b = 1 then .single else .batched

def ReadSeqPath (b : Nat) : PathKind := if b ≤ 1 then .single else .batched

def ReadRandomPath (b : Nat) : PathKind := if b ≤ 1 then .single else .batched

def ReadMissingPath (b : Nat) : PathKind := if b ≤ 1 then .single else .batched

def TxnReadSeqPath (b : Nat) : PathKind := if b ≤ 1 then .single else .batched

def TxnReadRandomPath (b : Nat) : PathKind := if b ≤ 1 then .single else .batched

def TxnReadMissingPath (b : Nat) : PathKind := if b ≤ 1 then .single else .batched

/-! ### Missing-read key generation (C7) -/

/-- Model of the `ReadMissingOperation::Execute` / `TxnReadMissingOperation::Execute` key
generation: `random_str_len = FLAGS_key_size + 4 - prefix.size()` (a
negative value would make the generation loop run zero times, which the
`Nat` truncated subtraction reproduces). -/
def ReadMissingKey (src : Nat → Nat) (keySize : Nat) (pfx : String) : String :=
  EncodeRawKey (pfx ++ GenRandomString src (keySize + 4 - pfx.length))

/-- A really-written sequential key of the same shard (the `KvPut` /
`KvBatchPut` / `Arrange` sequential key for counter value `count`):
`random_str_len = FLAGS_key_size - prefix.size()`. -/
def SeqFillKey (keySize : Nat) (pfx : String) (count : Nat) : String :=
  EncodeRawKey (pfx ++ GenSeqString count (keySize - pfx.length))

/-! ### Isolation-level configuration (C8)

`DEFINE_validator(txn_isolation_level, …)` accepts a value iff
`Helper::ToUpper(value)` is `"SI"` or `"RC"`; `GetTxnIsolationLevel()`
maps `"SI"`/`"RC"` to the isolation enum and `LOG(FATAL)`s otherwise
(modelled as `none`). -/

/-- Modelled from the spec: `dingodb::Helper::ToUpper` is not among the
source files (only its call sites are); per the spec the isolation-level
comparison is case-insensitive via upper-casing.  Character-wise ASCII
upper-casing (`Char.toUpper` maps exactly a–z to A–Z and fixes everything
else). -/
def ToUpper (s : String) : String := String.mk (s.data.map Char.toUpper)

/-- The `DEFINE_validator(txn_isolation_level, …)` lambda. -/
def txn_isolation_level_validator (value : String) : Bool :=
  ToUpper value == "SI" || ToUpper value == "RC"

inductive TransactionIsolation where
  | kSnapshotIsolation
  | kReadCommitted
deriving DecidableEq, Repr

/-- Model of `GetTxnIsolationLevel()`; the `LOG(FATAL)` fallthrough is `none`. -/
def GetTxnIsolationLevel (flag : String) : Option TransactionIsolation :=
  if ToUpper flag = "SI" then some TransactionIsolation.kSnapshotIsolation
  else if ToUpper flag = "RC" then some TransactionIsolation.kReadCommitted
  else none

/-! ### Entity-cache response validation (C9)

`VectorIndexCache::CheckIndexResponse` (vector_index_cache.h): the response
either carries an `IndexDefinitionWithId` or not (`Option D` models
`has_index_definition_with_id()` / `index_definition_with_id()`); `chk`
abstracts `CheckIndexDefinitionWithId`, whose body is not among the source
files.  Returns `(checked, logged)`: `logged` is whether the
`DINGO_LOG(WARNING)` branch fires. -/

def CheckIndexResponse (chk : D → Bool) (resp : Option D) : Bool × Bool :=
  let checked :=
    match resp with
    | none => false
    | some d => chk d
  (checked, !checked)

/-- Modelled from the spec: the slow-path bodies (`SlowGetVectorIndexByKey`
/ `SlowGetVectorIndexById`) are declared in the header but not among the
source files.  Per the spec (§4.3), the slow path validates the remote
response shape via the check before trusting it; a response failing the
check is treated as lookup failure and nothing is cached (`insert`
abstracts the under-write-lock insertion into the two maps). -/
def SlowLookup (chk : D → Bool) (resp : Option D) (insert : C → C) (cache : C) :
    Status × C :=
  if (CheckIndexResponse chk resp).1 then (Status.ok, insert cache)
  else (Status.err 1, cache)

/-! ### Properties -/

lemma nextLeader_fix (n i : Nat) : NextLeader n ((i + 1) % n) i = (i + 1) % n := by
  unfold NextLeader
  split <;> simp_all

/-- C1: For every endpoint list of length `n ≥ 1` and observed stale index `i`:
a `NextLeader(i)` call seeing current pointer `i` advances it to
`(i+1) % n`; a call seeing any other current pointer leaves it unchanged;
and any positive number of `NextLeader(i)` calls starting from pointer `i`
leaves the pointer at `(i+1) % n` — the pointer advances by exactly one
rotation per distinct stale observation, never more. -/
theorem nextLeader_single_rotation (n i : Nat) (hn : 1 ≤ n) :
    NextLeader n i i = (i + 1) % n ∧
    (∀ cur, cur ≠ i → NextLeader n cur i = cur) ∧
    (∀ k, 1 ≤ k → iterNextLeader n i k = (i + 1) % n) := by
  refine ⟨by simp [NextLeader], fun cur hcur => by simp [NextLeader, hcur], ?_⟩
  intro k hk
  induction k with
  | zero => omega
  | succ m ih =>
    rcases Nat.eq_zero_or_pos m with hm | hm
    · subst hm
      simp [iterNextLeader, NextLeader]
    · rw [iterNextLeader, ih hm, nextLeader_fix]

/-- Witness for C1: with 3 endpoints and stale index 2, one call and five
calls both leave the leader pointer at `0 = (2+1) % 3`. -/
theorem nextLeader_single_rotation_witness :
    NextLeader 3 2 2 = 0 ∧ NextLeader 3 0 2 = 0 ∧ iterNextLeader 3 2 5 = 0 := by
  obtain ⟨h1, h2, h3⟩ := nextLeader_single_rotation 3 2 (by decide)
  exact ⟨h1, h2 0 (by decide), h3 5 (by decide)⟩

lemma seqCalls_not_mem (f : α → Status) (ev : α → Event) (e : Event)
    (he : ∀ x, ev x ≠ e) : ∀ xs, e ∉ (seqCalls f ev xs).2 := by
  intro xs
  induction xs with
  | nil => simp [seqCalls]
  | cons x xs ih =>
    simp only [seqCalls]
    split
    · simpa using ⟨fun h => he x h.symm, ih⟩
    · simpa using fun h => he x h.symm

lemma runTxn_contract (s : TxnStub) (mid : Status × List Event)
    (hpre : Event.preCommitE ∉ mid.2) (hcom : Event.commitE ∉ mid.2)
    (hrel : Event.releaseE ∉ mid.2) :
    TxnAbortContract s mid (runTxn s mid) := by
  unfold TxnAbortContract runTxn
  rcases hnew : s.newTxn.isOk with _ | _ <;>
    rcases hmid : mid.1.isOk with _ | _ <;>
      rcases hp : s.preCommit.isOk with _ | _ <;>
        simp_all [List.count_eq_zero_of_not_mem]

/-- The first failing status of the middle phase is the status of the first
element whose call fails. -/
lemma seqCalls_fst (f : α → Status) (ev : α → Event) (xs : List α) :
    (seqCalls f ev xs).1 =
      (match xs.find? (fun x => !(f x).isOk) with
       | some x => f x
       | none => Status.ok) := by
  induction xs with
  | nil => simp [seqCalls]
  | cons x xs ih =>
    simp only [seqCalls, List.find?]
    rcases h : (f x).isOk with _ | _ <;> simp [h, ih]

/-- C2: Error-handling of the four transactional operations.  For each of
`KvTxnPut`, `KvTxnBatchPut`, `KvTxnGet`, `KvTxnBatchGet`: the transaction
handle is released (`delete txn`) exactly once on every exit path; if
opening fails nothing else is called; if a middle step (Put / BatchPut /
Get / BatchGet) fails, PreCommit and Commit are not called; if PreCommit
fails, Commit is not called; and the result status is the first failing
status, unchanged (for the per-element loops, the status of the first
element whose call failed). -/
theorem kvTxn_abort_semantics (s : TxnStub) (kvs : List KVPair)
    (keys : List String) (groups : List (List String)) :
    TxnAbortContract s
      (seqCalls (fun kv => s.put kv.key kv.value) (fun kv => Event.putE kv.key kv.value) kvs)
      (KvTxnPut s kvs) ∧
    TxnAbortContract s (seqCalls s.batchPut Event.batchPutE [kvs]) (KvTxnBatchPut s kvs) ∧
    TxnAbortContract s (seqCalls s.get Event.getE keys) (KvTxnGet s keys) ∧
    TxnAbortContract s (seqCalls s.batchGet Event.batchGetE groups) (KvTxnBatchGet s groups) ∧
    (∀ kv₀, kvs.find? (fun kv => !(s.put kv.key kv.value).isOk) = some kv₀ →
      (seqCalls (fun kv => s.put kv.key kv.value) (fun kv => Event.putE kv.key kv.value) kvs).1 =
        s.put kv₀.key kv₀.value) ∧
    (∀ k₀, keys.find? (fun k => !(s.get k).isOk) = some k₀ →
      (seqCalls s.get Event.getE keys).1 = s.get k₀) ∧
    (∀ g₀, groups.find? (fun g => !(s.batchGet g).isOk) = some g₀ →
      (seqCalls s.batchGet Event.batchGetE groups).1 = s.batchGet g₀) := by
  refine ⟨?_, ?_, ?_, ?_, ?_, ?_, ?_⟩
  · exact runTxn_contract s _ (seqCalls_not_mem _ _ _ (by intro x; simp) kvs)
      (seqCalls_not_mem _ _ _ (by intro x; simp) kvs)
      (seqCalls_not_mem _ _ _ (by intro x; simp) kvs)
  · exact runTxn_contract s _ (seqCalls_not_mem _ _ _ (by intro x; simp) [kvs])
      (seqCalls_not_mem _ _ _ (by intro x; simp) [kvs])
      (seqCalls_not_mem _ _ _ (by intro x; simp) [kvs])
  · exact runTxn_contract s _ (seqCalls_not_mem _ _ _ (by intro x; simp) keys)
      (seqCalls_not_mem _ _ _ (by intro x; simp) keys)
      (seqCalls_not_mem _ _ _ (by intro x; simp) keys)
  · exact runTxn_contract s _ (seqCalls_not_mem _ _ _ (by intro x; simp) groups)
      (seqCalls_not_mem _ _ _ (by intro x; simp) groups)
      (seqCalls_not_mem _ _ _ (by intro x; simp) groups)
  · intro kv₀ h
    rw [seqCalls_fst, h]
  · intro k₀ h
    rw [seqCalls_fst, h]
  · intro g₀ h
    rw [seqCalls_fst, h]

/-- Witness for C2: under `stubEx`, a three-pair `KvTxnPut` that fails at the
second `Put` returns `err 7`, never calls PreCommit/Commit, and releases the
handle exactly once; a `KvTxnBatchPut` whose middle succeeds but whose
`PreCommit` fails returns `err 3` and never calls Commit. -/
theorem kvTxn_abort_semantics_witness :
    (KvTxnPut stubEx [⟨"k1", "v1"⟩, ⟨"k2", "v2"⟩, ⟨"k3", "v3"⟩]).1 = Status.err 7 ∧
    Event.preCommitE ∉ (KvTxnPut stubEx [⟨"k1", "v1"⟩, ⟨"k2", "v2"⟩, ⟨"k3", "v3"⟩]).2 ∧
    Event.commitE ∉ (KvTxnPut stubEx [⟨"k1", "v1"⟩, ⟨"k2", "v2"⟩, ⟨"k3", "v3"⟩]).2 ∧
    (KvTxnPut stubEx [⟨"k1", "v1"⟩, ⟨"k2", "v2"⟩, ⟨"k3", "v3"⟩]).2.count Event.releaseE = 1 ∧
    (KvTxnBatchPut stubEx [⟨"k1", "v1"⟩]).1 = Status.err 3 ∧
    Event.commitE ∉ (KvTxnBatchPut stubEx [⟨"k1", "v1"⟩]).2 := by
  obtain ⟨hput, -, -, -, hfirst, -, -⟩ :=
    kvTxn_abort_semantics stubEx [⟨"k1", "v1"⟩, ⟨"k2", "v2"⟩, ⟨"k3", "v3"⟩] [] []
  obtain ⟨-, hbput, -, -, -, -, -⟩ :=
    kvTxn_abort_semantics stubEx [⟨"k1", "v1"⟩] [] []
  obtain ⟨hrel, -, hmidfail, -, -⟩ := hput
  obtain ⟨-, -, -, hprefail, -⟩ := hbput
  have h1 := hmidfail (by decide) (by decide)
  have h2 := hprefail (by decide) (by decide) (by decide)
  have h3 := hfirst ⟨"k2", "v2"⟩ (by decide)
  refine ⟨?_, h1.2.1, h1.2.2, hrel, h2.1, h2.2⟩
  rw [h1.1, h3]
  decide

lemma decDigits_append (acc : Nat) (xs ys : List Char) :
    decDigits acc (xs ++ ys) = decDigits (decDigits acc xs) ys := by
  induction xs generalizing acc with
  | nil => rfl
  | cons x xs ih => exact ih (acc * 10 + (x.toNat - 48))

lemma decDigits_nil (acc : Nat) : decDigits acc [] = acc := rfl

lemma decDigits_cons (acc : Nat) (c : Char) (cs : List Char) :
    decDigits acc (c :: cs) = decDigits (acc * 10 + (c.toNat - 48)) cs := rfl

lemma digitChar_decode : ∀ d, d < 10 → (Nat.digitChar d).toNat - 48 = d := by decide

lemma toDigitsCore_succ (f n : Nat) (ds : List Char) :
    Nat.toDigitsCore 10 (f + 1) n ds =
      if n / 10 = 0 then Nat.digitChar (n % 10) :: ds
      else Nat.toDigitsCore 10 f (n / 10) (Nat.digitChar (n % 10) :: ds) := rfl

lemma toDigitsCore_suffix (fuel : Nat) : ∀ (n : Nat) (ds : List Char),
    Nat.toDigitsCore 10 fuel n ds = Nat.toDigitsCore 10 fuel n [] ++ ds := by
  induction fuel with
  | zero => intro n ds; rfl
  | succ f ih =>
    intro n ds
    rw [toDigitsCore_succ, toDigitsCore_succ]
    by_cases h : n / 10 = 0
    · rw [if_pos h, if_pos h]
      rfl
    · rw [if_neg h, if_neg h, ih (n / 10) (Nat.digitChar (n % 10) :: ds),
        ih (n / 10) [Nat.digitChar (n % 10)], List.append_assoc]
      rfl

lemma toDigitsCore_decode (fuel : Nat) :
    ∀ n, n < 10 ^ fuel → ∀ acc,
      decDigits acc (Nat.toDigitsCore 10 fuel n []) =
        acc * 10 ^ (Nat.toDigitsCore 10 fuel n []).length + n := by
  induction fuel with
  | zero =>
    intro n hn acc
    interval_cases n
    show acc = acc * 10 ^ 0 + 0
    simp
  | succ f ih =>
    intro n hn acc
    rw [toDigitsCore_succ]
    by_cases h0 : n / 10 = 0
    · rw [if_pos h0, decDigits_cons, decDigits_nil,
        digitChar_decode (n % 10) (by omega), List.length_cons, List.length_nil, pow_one]
      omega
    · have hdiv : n / 10 < 10 ^ f := by
        apply Nat.div_lt_of_lt_mul
        calc n < 10 ^ (f + 1) := hn
        _ = 10 * 10 ^ f := by ring
      rw [if_neg h0, toDigitsCore_suffix f (n / 10) [Nat.digitChar (n % 10)],
        decDigits_append, ih (n / 10) hdiv acc, decDigits_cons, decDigits_nil,
        digitChar_decode (n % 10) (by omega), List.length_append, List.length_cons,
        List.length_nil, Nat.zero_add, pow_succ, ← Nat.mul_assoc]
      generalize acc * 10 ^ (Nat.toDigitsCore 10 f (n / 10) []).length = A
      omega

/-- Decoding the digits of `Nat.repr n` recovers `n`. -/
lemma repr_decode (n : Nat) : decDigits 0 (Nat.repr n).data = n := by
  have hfuel : n < 10 ^ (n + 1) :=
    lt_of_lt_of_le (Nat.lt_pow_self (by omega) n)
      (Nat.pow_le_pow_right (by omega) (Nat.le_succ n))
  have h := toDigitsCore_decode (n + 1) n hfuel 0
  have hd : (Nat.repr n).data = Nat.toDigitsCore 10 (n + 1) n [] := rfl
  rw [hd, h, Nat.zero_mul, Nat.zero_add]

lemma decDigits_replicate_zero (k : Nat) : decDigits 0 (List.replicate k '0') = 0 := by
  induction k with
  | zero => rfl
  | succ m ih =>
    rw [List.replicate_succ, decDigits_cons]
    simpa using ih

/-- Decoding the digits of `GenSeqString num len` recovers `num`: the
leading-zero padding is value-preserving. -/
lemma genSeqString_decode (num len : Nat) :
    decDigits 0 (GenSeqString num len).data = num := by
  unfold GenSeqString
  rw [show (String.mk (List.replicate (len - (Nat.repr num).length) '0' ++
      (Nat.repr num).data)).data =
      List.replicate (len - (Nat.repr num).length) '0' ++ (Nat.repr num).data from rfl,
    decDigits_append, decDigits_replicate_zero, repr_decode]

/-- Injectivity: `GenSeqString · len` is injective: distinct counters give distinct
zero-padded decimal strings, whatever the pad width. -/
lemma genSeqString_injective (len : Nat) :
    Function.Injective (fun num => GenSeqString num len) := by
  intro a b hab
  have := congrArg (fun s => decDigits 0 s.data) hab
  simpa [genSeqString_decode] using this

/-- For counters that fit the pad width, `GenSeqString num len` has length
exactly `len`. -/
lemma genSeqString_length (num len : Nat) (hlen : 1 ≤ len) (hnum : num < 10 ^ len) :
    (GenSeqString num len).length = len := by
  have hr : (Nat.repr num).length ≤ len := Nat.repr_length num len hlen hnum
  unfold GenSeqString
  show (List.replicate (len - (Nat.repr num).length) '0' ++ (Nat.repr num).data).length = len
  rw [List.length_append, List.length_replicate]
  have : (Nat.repr num).data.length = (Nat.repr num).length := rfl
  omega

lemma arrangeGo_inv (bput : List KVPair → Bool) (valOf : Nat → String) (pfx : String)
    (w n : Nat) :
    ∀ rem i counter kvs keys submitted,
      i + rem = n →
      (rem = 0 → kvs = []) →
      keys = (submitted.flatten ++ kvs).map KVPair.key →
      (∀ b ∈ submitted, bput b = true) →
      ArrangeInv bput (arrangeGo bput valOf pfx w n rem i counter kvs keys submitted) := by
  intro rem
  induction rem with
  | zero =>
    intro i counter kvs keys submitted hin hkvs hkeys hsub
    refine ⟨?_, fun _ => hsub, fun hfalse => by simp [arrangeGo] at hfalse⟩
    simp only [arrangeGo]
    rw [hkeys, hkvs rfl, List.append_nil]
  | succ rm ih =>
    intro i counter kvs keys submitted hin hkvs hkeys hsub
    simp only [arrangeGo]
    split
    · rename_i hflush
      split
      · rename_i hbp
        refine ih (i + 1) (counter + 1) [] _ _ (by omega) (fun _ => rfl) ?_ ?_
        · rw [hkeys]
          simp [List.flatten_append]
        · intro b hb
          rcases List.mem_append.mp hb with hb | hb
          · exact hsub b hb
          · rw [List.mem_singleton.mp hb]
            exact hbp
      · rename_i hbp
        refine ⟨?_, fun h => by simp at h, fun _ => ⟨submitted, _, rfl, by simpa using hbp, hsub⟩⟩
        rw [hkeys]
        simp [List.flatten_append]
    · rename_i hflush
      have hrm : rm ≠ 0 := by
        intro h0
        exact hflush (Or.inr (by omega))
      refine ih (i + 1) (counter + 1) _ _ _ (by omega) (fun h => absurd h hrm) ?_ hsub
      rw [hkeys]
      simp

/-- C4: If a batch write inside `Arrange` fails, `Arrange` returns `false`
immediately — the failed batch is the last one handed to the write oracle
and every earlier submitted batch succeeded — but the shard's key list then
holds the keys of every submitted batch *including the failed one* (each
key is recorded before its batch is written), not only the keys of the
successful batches.  On success the key list is exactly the keys of the
successful batches. -/
theorem arrange_fail_fast (bput : List KVPair → Bool) (valOf : Nat → String)
    (keySize n : Nat) (e : RegionEntry) (he : e.keys = []) :
    ArrangeInv bput (Arrange bput valOf keySize n e) := by
  apply arrangeGo_inv bput valOf e.pfx (keySize - e.pfx.length) n n 0 e.counter [] e.keys []
    (by omega) (fun _ => rfl) (by simpa using he) (by simp)

/-- Witness for C4: a two-key arrange whose only batch write fails —
the key list holds both keys of the failed batch, the failed batch is the
last (and only) one submitted. -/
theorem arrange_fail_fast_witness :
    ArrangeInv (fun _ => false)
      (Arrange (fun _ => false) (fun _ => "v") 8 2 ⟨"P", 0, [], 0⟩) :=
  arrange_fail_fast (fun _ => false) (fun _ => "v") 8 2 ⟨"P", 0, [], 0⟩ rfl

/-- Counterexample to C4 as stated: with every batch write failing, no batch
is written successfully, so a key list "populated up to the last successful
batch and no further" would be empty; the code instead records the failed
batch's two keys in the shard's key list before attempting the write. -/
theorem arrange_keys_of_failed_batch_present :
    (Arrange (fun _ => false) (fun _ => "v") 8 2 ⟨"P", 0, [], 0⟩).ok = false ∧
    (Arrange (fun _ => false) (fun _ => "v") 8 2 ⟨"P", 0, [], 0⟩).keys =
      ["wP0000000", "wP0000001"] := by
  constructor <;> rfl

/-- With an always-succeeding batch write, `arrangeGo` succeeds and appends
exactly one key per counter value `counter, counter+1, …`. -/
lemma arrangeGo_allok (bput : List KVPair → Bool) (hb : ∀ b, bput b = true)
    (valOf : Nat → String) (pfx : String) (w n : Nat) :
    ∀ rem i counter kvs keys submitted,
      (arrangeGo bput valOf pfx w n rem i counter kvs keys submitted).ok = true ∧
      (arrangeGo bput valOf pfx w n rem i counter kvs keys submitted).keys =
        keys ++ (List.range' counter rem).map
          (fun c => EncodeRawKey (pfx ++ GenSeqString c w)) := by
  intro rem
  induction rem with
  | zero =>
    intro i counter kvs keys submitted
    simp [arrangeGo]
  | succ rm ih =>
    intro i counter kvs keys submitted
    simp only [arrangeGo, hb, if_true]
    rw [List.range'_succ, List.map_cons]
    split
    · obtain ⟨hok, hkeys⟩ := ih (i + 1) (counter + 1) [] _ _
      refine ⟨hok, ?_⟩
      rw [hkeys, List.append_assoc, List.singleton_append]
    · obtain ⟨hok, hkeys⟩ := ih (i + 1) (counter + 1) _ _ _
      refine ⟨hok, ?_⟩
      rw [hkeys, List.append_assoc, List.singleton_append]

lemma readIter_eq (e : RegionEntry) (h : e.keys.length ≠ 0) (t : Nat) :
    readIter e t = { e with read_index := e.read_index + t } := by
  induction t with
  | zero => rfl
  | succ m ih =>
    rw [readIter, ih, readSeqStep]
    simp only [h, if_neg]
    rfl

lemma nthReadKey_eq (e : RegionEntry) (h : e.keys.length ≠ 0) (t : Nat) :
    nthReadKey e t = some (e.keys.getD ((e.read_index + t) % e.keys.length) "") := by
  rw [nthReadKey, readIter_eq e h t, readSeqStep]
  simp [h]

/-- C3: evaluation of the sequential-read paths on a shard whose
materialized key list holds two keys, `read_index = 0`.  The single-key
path and the transactional batched path draw `keys[read_index++ %
keys.size()]` from the materialized list, as the claim states; but the raw
batched path (`ReadSeqOperation::Execute` with `FLAGS_batch_size = 2`)
indexes the freshly-declared empty local `keys` vector that shadows the
region's key list — `read_index % keys.size()` divides by zero (undefined
behaviour, modelled `none`) and no key is drawn from the materialized
list. -/
theorem readSeq_batched_shadowed_key_list :
    ReadSeqExecute 1 ⟨"P", 2, ["wPa", "wPb"], 0⟩ =
      some (["wPa"], ⟨"P", 2, ["wPa", "wPb"], 1⟩) ∧
    TxnReadSeqExecute 2 ⟨"P", 2, ["wPa", "wPb"], 0⟩ =
      some (["wPa", "wPb"], ⟨"P", 2, ["wPa", "wPb"], 2⟩) ∧
    ReadSeqExecute 2 ⟨"P", 2, ["wPa", "wPb"], 0⟩ = none := by
  refine ⟨rfl, rfl, rfl⟩

lemma string_append_cancel_left (a x y : String) (h : a ++ x = a ++ y) : x = y := by
  have hd := congrArg String.data h
  rw [String.data_append, String.data_append] at hd
  rcases x with ⟨xd⟩
  rcases y with ⟨yd⟩
  exact congrArg String.mk (List.append_cancel_left hd)

lemma arrangeP_keys (valOf : Nat → String) :
    (arrangeP valOf).keys =
      (List.range' 0 1000).map (fun c => EncodeRawKey ("P" ++ GenSeqString c 7)) := by
  have h := (arrangeGo_allok (fun _ => true) (fun _ => rfl) valOf "P" 7 1000
    1000 0 0 [] [] []).2
  simpa [arrangeP, Arrange] using h

lemma encodeP_injective :
    Function.Injective (fun c => EncodeRawKey ("P" ++ GenSeqString c 7)) := by
  intro a b hab
  simp only [EncodeRawKey] at hab
  have h1 := string_append_cancel_left "w" _ _ hab
  have h2 := string_append_cancel_left "P" _ _ h1
  exact genSeqString_injective 7 h2

/-- C5: after `Arrange` of a fresh shard with prefix `"P"`, `n = 1000`, key
size 8 (all batch writes succeeding): the arrange reports success, the key
list holds exactly 1000 pairwise-distinct keys, every key starts with
`"wP"` — the client-raw marker `"w"` followed by the prefix `"P"` (NOT with
the bare prefix `"P"`) — and the `(t+1)`-th subsequent single-key
sequential read returns key number `t % 1000` of the list in insertion
order, so read 1001 wraps back to key 1. -/
theorem arrange_thousand_then_reads_cycle (valOf : Nat → String) :
    (arrangeP valOf).ok = true ∧
    (arrangeP valOf).keys.length = 1000 ∧
    (∀ k ∈ (arrangeP valOf).keys, ∃ rest, k = "wP" ++ rest) ∧
    (arrangeP valOf).keys.Nodup ∧
    (∀ t, nthReadKey ⟨"P", 1000, (arrangeP valOf).keys, 0⟩ t =
      some ((arrangeP valOf).keys.getD (t % 1000) "")) ∧
    nthReadKey ⟨"P", 1000, (arrangeP valOf).keys, 0⟩ 1000 =
      nthReadKey ⟨"P", 1000, (arrangeP valOf).keys, 0⟩ 0 := by
  have hchar := arrangeP_keys valOf
  have hlen : (arrangeP valOf).keys.length = 1000 := by
    rw [hchar, List.length_map, List.length_range']
  have hok := (arrangeGo_allok (fun _ => true) (fun _ => rfl) valOf "P" 7 1000
    1000 0 0 [] [] []).1
  refine ⟨hok, hlen, ?_, ?_, ?_, ?_⟩
  · intro k hk
    rw [hchar] at hk
    obtain ⟨c, -, rfl⟩ := List.mem_map.mp hk
    exact ⟨GenSeqString c 7, rfl⟩
  · rw [hchar]
    exact List.Nodup.map encodeP_injective (by simp [List.nodup_range'])
  · intro t
    rw [nthReadKey_eq _ (by simp [hlen]) t]
    simp [hlen]
  · rw [nthReadKey_eq _ (by simp [hlen]) 1000, nthReadKey_eq _ (by simp [hlen]) 0]
    simp [hlen]

/-- Witness for C5: in the arranged list (values all `"v"`), the first key
is `"wP0000000"`, which does start with `"wP"`, and read number 1001 wraps
back to the same key as read number 1. -/
theorem arrange_thousand_then_reads_cycle_witness :
    ("wP0000000" ∈ (arrangeP fun _ => "v").keys ∧
      ∃ rest, ("wP0000000" : String) = "wP" ++ rest) ∧
    nthReadKey ⟨"P", 1000, (arrangeP fun _ => "v").keys, 0⟩ 1000 =
      nthReadKey ⟨"P", 1000, (arrangeP fun _ => "v").keys, 0⟩ 0 := by
  obtain ⟨-, -, hpfx, -, -, hwrap⟩ := arrange_thousand_then_reads_cycle fun _ => "v"
  have hmem : "wP0000000" ∈ (arrangeP fun _ => "v").keys := by
    rw [arrangeP_keys]
    exact List.mem_map.mpr ⟨0, by simp [List.mem_range'], by decide⟩
  exact ⟨⟨hmem, hpfx _ hmem⟩, hwrap⟩

/-- Counterexample to C5 as stated: the keys recorded by `Arrange` are the
`EncodeRawKey`-encoded keys, which begin with the client-raw marker `"w"`;
the first arranged key is `"wP0000000"`, which does not start with the bare
prefix `"P"`. -/
theorem arrange_keys_not_bare_prefixed :
    (arrangeP fun _ => "v").keys.head? = some "wP0000000" ∧
    ¬ ∃ rest, ("wP0000000" : String) = "P" ++ rest := by
  constructor
  · rw [arrangeP_keys, show List.range' 0 1000 = 0 :: List.range' 1 999 from
      List.range'_succ 0 999 1, List.map_cons, List.head?_cons]
    decide
  · rintro ⟨rest, h⟩
    have hd := congrArg (fun s : String => s.data.head?) h
    have hWP : some 'w' = some 'P' := hd
    exact absurd hWP (by decide)

lemma kvBatchPutLoop_succ_rand (srcK srcV : Nat → Nat → Nat) (pfx : String)
    (w vs rem i counter : Nat) (kvs : List KVPair) :
    kvBatchPutLoop srcK srcV pfx w vs true (rem + 1) i counter kvs =
      kvBatchPutLoop srcK srcV pfx w vs true rem (i + 1) counter
        (kvs ++ [⟨EncodeRawKey (pfx ++ GenRandomString (srcK i) w),
          GenRandomString (srcV i) vs⟩]) := rfl

lemma kvBatchPutLoop_succ_seq (srcK srcV : Nat → Nat → Nat) (pfx : String)
    (w vs rem i counter : Nat) (kvs : List KVPair) :
    kvBatchPutLoop srcK srcV pfx w vs false (rem + 1) i counter kvs =
      kvBatchPutLoop srcK srcV pfx w vs false rem (i + 1) (counter + 1)
        (kvs ++ [⟨EncodeRawKey (pfx ++ GenSeqString counter w),
          GenRandomString (srcV i) vs⟩]) := rfl

lemma kvBatchPutLoop_counter (srcK srcV : Nat → Nat → Nat) (pfx : String)
    (w vs : Nat) (is_random : Bool) :
    ∀ rem i counter kvs,
      (kvBatchPutLoop srcK srcV pfx w vs is_random rem i counter kvs).2 =
        counter + (if is_random then 0 else rem) := by
  intro rem
  induction rem with
  | zero => intro i counter kvs; rcases is_random with _ | _ <;> rfl
  | succ rm ih =>
    intro i counter kvs
    rcases is_random with _ | _
    · rw [kvBatchPutLoop_succ_seq, ih]
      simp only [if_neg Bool.false_ne_true]
      omega
    · rw [kvBatchPutLoop_succ_rand, ih]
      rfl

/-- C10: frame effect of the raw put paths on the shard's shared counter.
`KvPut` advances the counter by exactly one for both random and sequential
key generation — the fetched value is simply discarded in the random case —
while `KvBatchPut` advances it only for sequential generation: a random
batched put of any size `b` leaves the counter unchanged, a sequential
batched put advances it by `b`.  Neither path touches the shard's key list,
prefix, or read cursor. -/
theorem kvPut_counter_frame (srcK srcV : Nat → Nat) (srcK2 srcV2 : Nat → Nat → Nat)
    (keySize valueSize b : Nat) (st : Status) (e : RegionEntry) :
    (∀ is_random, (KvPut srcK srcV keySize valueSize st e is_random).2.counter
      = e.counter + 1) ∧
    (KvBatchPut srcK2 srcV2 keySize valueSize b st e true).2.counter = e.counter ∧
    (KvBatchPut srcK2 srcV2 keySize valueSize b st e false).2.counter = e.counter + b ∧
    (∀ is_random, (KvPut srcK srcV keySize valueSize st e is_random).2.keys = e.keys ∧
      (KvPut srcK srcV keySize valueSize st e is_random).2.pfx = e.pfx ∧
      (KvPut srcK srcV keySize valueSize st e is_random).2.read_index = e.read_index) ∧
    (∀ is_random, (KvBatchPut srcK2 srcV2 keySize valueSize b st e is_random).2.keys = e.keys ∧
      (KvBatchPut srcK2 srcV2 keySize valueSize b st e is_random).2.pfx = e.pfx ∧
      (KvBatchPut srcK2 srcV2 keySize valueSize b st e is_random).2.read_index
        = e.read_index) := by
  refine ⟨fun _ => rfl, ?_, ?_, fun _ => ⟨rfl, rfl, rfl⟩, fun _ => ⟨rfl, rfl, rfl⟩⟩
  · show (kvBatchPutLoop srcK2 srcV2 e.pfx (keySize - e.pfx.length) valueSize true
      b 0 e.counter []).2 = e.counter
    rw [kvBatchPutLoop_counter]
    simp
  · show (kvBatchPutLoop srcK2 srcV2 e.pfx (keySize - e.pfx.length) valueSize false
      b 0 e.counter []).2 = e.counter + b
    rw [kvBatchPutLoop_counter]
    simp

/-- C6 (amended): for every configured batch size `b ≥ 1`, all ten
operations take the single-key path exactly when `b = 1` and the batched
path exactly when `b > 1` — the choice depends only on the batch size.
(At `b = 0` the dispatch does depend on the operation type; see the
counterexample.) -/
theorem path_dispatch_by_batch_size (b : Nat) (hb : 1 ≤ b) :
    (FillSeqPath b = FillRandomPath b ∧ FillSeqPath b = FillTxnSeqPath b ∧
      FillSeqPath b = FillTxnRandomPath b ∧ FillSeqPath b = ReadSeqPath b ∧
      FillSeqPath b = ReadRandomPath b ∧ FillSeqPath b = ReadMissingPath b ∧
      FillSeqPath b = TxnReadSeqPath b ∧ FillSeqPath b = TxnReadRandomPath b ∧
      FillSeqPath b = TxnReadMissingPath b) ∧
    (FillSeqPath b = PathKind.single ↔ b = 1) ∧
    (FillSeqPath b = PathKind.batched ↔ 1 < b) := by
  unfold FillSeqPath FillRandomPath FillTxnSeqPath FillTxnRandomPath ReadSeqPath
    ReadRandomPath ReadMissingPath TxnReadSeqPath TxnReadRandomPath TxnReadMissingPath
  by_cases h1 : b = 1
  · subst h1
    simp
  · have h2 : ¬ b ≤ 1 := by omega
    simp [h1, h2]
    omega

/-- Witness for C6: at batch size 2 every operation batches; at batch size 1
every operation takes the single-key path. -/
theorem path_dispatch_by_batch_size_witness :
    (FillSeqPath 2 = ReadSeqPath 2 ∧ FillSeqPath 2 = PathKind.batched) ∧
    (FillSeqPath 1 = ReadSeqPath 1 ∧ FillSeqPath 1 = PathKind.single) := by
  obtain ⟨hall2, -, hb2⟩ := path_dispatch_by_batch_size 2 (by decide)
  obtain ⟨hall1, hs1, -⟩ := path_dispatch_by_batch_size 1 (by decide)
  exact ⟨⟨hall2.2.2.2.1, hb2.mpr (by decide)⟩, ⟨hall1.2.2.2.1, hs1.mpr rfl⟩⟩

/-- Counterexample to C6 as stated: at batch size 0 (accepted by the
`uint32` flag), the fill operations take the batched path (`0 != 1`) while
the read operations take the single-key path (`0 <= 1`) — so the batched
path is not taken "exactly when the size is greater than 1", and the choice
does depend on the operation type. -/
theorem path_dispatch_differs_at_zero :
    FillSeqPath 0 = PathKind.batched ∧ ReadSeqPath 0 = PathKind.single ∧
    FillSeqPath 0 ≠ ReadSeqPath 0 := by
  refine ⟨rfl, rfl, by decide⟩

lemma genRandomString_length (src : Nat → Nat) (len : Nat) :
    (GenRandomString src len).length = len := by
  show ((List.range len).map _).length = len
  rw [List.length_map, List.length_range]

lemma string_length_append (a b : String) : (a ++ b).length = a.length + b.length := by
  rcases a with ⟨ad⟩
  rcases b with ⟨bd⟩
  exact List.length_append ad bd

/-- C7 (amended): for every prefix strictly shorter than the configured key
size, a missing-read key has total length `key_size + 5`: the raw-encode
marker `"w"` plus generated material (prefix + random filler) of length
`key_size + 4`.  It is exactly 4 bytes longer than a really-written
sequential key of the same shard whose counter value fits the zero-pad
width (`count < 10 ^ (key_size - |prefix|)`); really-written keys have
length `key_size + 1`. -/
theorem readMissingKey_four_longer (src : Nat → Nat) (keySize : Nat) (pfx : String)
    (count : Nat) (hp : pfx.length < keySize) (hc : count < 10 ^ (keySize - pfx.length)) :
    (ReadMissingKey src keySize pfx).length = keySize + 5 ∧
    (pfx ++ GenRandomString src (keySize + 4 - pfx.length)).length = keySize + 4 ∧
    (SeqFillKey keySize pfx count).length = keySize + 1 ∧
    (ReadMissingKey src keySize pfx).length = (SeqFillKey keySize pfx count).length + 4 := by
  have hm : (pfx ++ GenRandomString src (keySize + 4 - pfx.length)).length = keySize + 4 := by
    rw [string_length_append, genRandomString_length]
    omega
  have hs : (SeqFillKey keySize pfx count).length = keySize + 1 := by
    unfold SeqFillKey EncodeRawKey
    rw [string_length_append, string_length_append,
      genSeqString_length count (keySize - pfx.length) (by omega) hc]
    have : ("w" : String).length = 1 := rfl
    omega
  have hk : (ReadMissingKey src keySize pfx).length = keySize + 5 := by
    unfold ReadMissingKey EncodeRawKey
    rw [string_length_append, hm]
    have : ("w" : String).length = 1 := rfl
    omega
  exact ⟨hk, hm, hs, by omega⟩

/-- Witness for C7 (amended): key size 8, prefix `"P"`, counter 5 — the
missing key is 13 bytes, the real key 9 bytes, difference 4. -/
theorem readMissingKey_four_longer_witness :
    ("P" : String).length < 8 ∧ (5 : Nat) < 10 ^ (8 - ("P" : String).length) ∧
    (ReadMissingKey (fun _ => 0) 8 "P").length = 13 ∧
    (SeqFillKey 8 "P" 5).length = 9 ∧
    (ReadMissingKey (fun _ => 0) 8 "P").length = (SeqFillKey 8 "P" 5).length + 4 := by
  obtain ⟨h1, -, h3, h4⟩ := readMissingKey_four_longer (fun _ => 0) 8 "P" 5
    (by decide) (by decide)
  exact ⟨by decide, by decide, h1, h3, h4⟩

/-- Counterexample to C7 as stated: the full generated missing-read key
(which is what is submitted to the raw/transactional Get) has length
`key_size + 5`, not `key_size + 4` — the claim's count omits the
`EncodeRawKey` marker byte — and when the shard's counter outgrows the
zero-pad width the "exactly 4 bytes longer than every really-written key"
comparison also fails: with key size 8 and prefix `"PPPPPPP"` (7 ≤ 8), the
really-written key for counter value 10 is 10 bytes while the missing key
is 13 bytes — 3 bytes longer, not 4. -/
theorem readMissingKey_length_counterexample :
    (ReadMissingKey (fun _ => 0) 8 "P").length ≠ 8 + 4 ∧
    ("PPPPPPP" : String).length ≤ 8 ∧
    (SeqFillKey 8 "PPPPPPP" 10).length = 10 ∧
    (ReadMissingKey (fun _ => 0) 8 "PPPPPPP").length ≠
      (SeqFillKey 8 "PPPPPPP" 10).length + 4 := by
  refine ⟨by decide, by decide, by decide, by decide⟩

/-! Character-level facts about ASCII upper-casing, for the
isolation-level validator. -/

lemma char_toNat_ofNat (m : Nat) (hm : m < 55296) : (Char.ofNat m).toNat = m := by
  unfold Char.ofNat
  rw [dif_pos (Or.inl hm)]
  rfl

lemma toUpper_eq_iff (c U L : Char) (hU : 65 ≤ U.toNat ∧ U.toNat ≤ 90)
    (hL : L.toNat = U.toNat + 32) : Char.toUpper c = U ↔ c = U ∨ c = L := by
  constructor
  · intro h
    unfold Char.toUpper at h
    dsimp only at h
    split at h
    · rename_i hc
      right
      have hval : (Char.ofNat (c.toNat - 32)).toNat = U.toNat := congrArg Char.toNat h
      rw [char_toNat_ofNat _ (by omega)] at hval
      have hcl : c.toNat = L.toNat := by omega
      calc c = Char.ofNat c.toNat := (Char.ofNat_toNat c).symm
      _ = Char.ofNat L.toNat := by rw [hcl]
      _ = L := Char.ofNat_toNat L
    · exact Or.inl h
  · intro h
    rcases h with h | h <;> subst h
    · unfold Char.toUpper
      dsimp only
      rw [if_neg (by omega)]
    · unfold Char.toUpper
      dsimp only
      rw [if_pos (by omega), (show c.toNat - 32 = U.toNat by omega)]
      exact Char.ofNat_toNat U

lemma toUpper_eq_two (s : String) (U1 L1 U2 L2 : Char)
    (hU1 : 65 ≤ U1.toNat ∧ U1.toNat ≤ 90) (hL1 : L1.toNat = U1.toNat + 32)
    (hU2 : 65 ≤ U2.toNat ∧ U2.toNat ≤ 90) (hL2 : L2.toNat = U2.toNat + 32)
    (h : s.data.map Char.toUpper = [U1, U2]) :
    s = String.mk [U1, U2] ∨ s = String.mk [U1, L2] ∨
      s = String.mk [L1, U2] ∨ s = String.mk [L1, L2] := by
  rcases s with ⟨d⟩
  rcases d with _ | ⟨c1, _ | ⟨c2, _ | ⟨c3, rest⟩⟩⟩
  · simp at h
  · simp at h
  · rw [List.map_cons, List.map_cons, List.map_nil] at h
    have h' : c1.toUpper = U1 ∧ c2.toUpper = U2 := by simpa using h
    obtain ⟨h1, h2⟩ := h'
    rcases (toUpper_eq_iff c1 U1 L1 hU1 hL1).mp h1 with rfl | rfl <;>
      rcases (toUpper_eq_iff c2 U2 L2 hU2 hL2).mp h2 with rfl | rfl <;> simp
  · simp at h

/-- C8: the isolation-level validator accepts exactly the eight case
variants of `"si"` / `"rc"` — upper-casing each of the two characters must
yield `"SI"` or `"RC"`, and ASCII upper-casing of a character yields `'S'`,
`'I'`, `'R'`, `'C'` only for the corresponding upper- or lower-case letter
— and it accepts a string exactly when `GetTxnIsolationLevel` resolves it
to an isolation level rather than hitting `LOG(FATAL)` (so an invalid
string is rejected at flag-validation time, before any transaction is
opened with the parsed level). -/
theorem isolation_level_validator_exact (s : String) :
    (txn_isolation_level_validator s = true ↔
      s ∈ (["si", "sI", "Si", "SI", "rc", "rC", "Rc", "RC"] : List String)) ∧
    (txn_isolation_level_validator s = true ↔ (GetTxnIsolationLevel s).isSome = true) := by
  constructor
  · constructor
    · intro h
      rcases Bool.or_eq_true_iff.mp h with h | h
      · have hSI : ToUpper s = "SI" := eq_of_beq h
        have hdata : s.data.map Char.toUpper = ['S', 'I'] := congrArg String.data hSI
        rcases toUpper_eq_two s 'S' 's' 'I' 'i' (by decide) (by decide) (by decide)
          (by decide) hdata with rfl | rfl | rfl | rfl <;> decide
      · have hRC : ToUpper s = "RC" := eq_of_beq h
        have hdata : s.data.map Char.toUpper = ['R', 'C'] := congrArg String.data hRC
        rcases toUpper_eq_two s 'R' 'r' 'C' 'c' (by decide) (by decide) (by decide)
          (by decide) hdata with rfl | rfl | rfl | rfl <;> decide
    · intro h
      simp only [List.mem_cons, List.not_mem_nil, or_false] at h
      rcases h with rfl | rfl | rfl | rfl | rfl | rfl | rfl | rfl <;> decide
  · unfold txn_isolation_level_validator GetTxnIsolationLevel
    by_cases h1 : ToUpper s = "SI"
    · simp [h1]
    · by_cases h2 : ToUpper s = "RC" <;> simp [h1, h2]

/-- Witness for C8: the mixed-case variant `"sI"` is accepted (and resolves
to an isolation level); `"serializable"` is rejected (and would hit the
`LOG(FATAL)` path). -/
theorem isolation_level_validator_exact_witness :
    txn_isolation_level_validator "sI" = true ∧
    txn_isolation_level_validator "serializable" = false ∧
    (GetTxnIsolationLevel "serializable").isSome = false := by
  obtain ⟨hmem, hiso⟩ := isolation_level_validator_exact "sI"
  obtain ⟨hmem2, hiso2⟩ := isolation_level_validator_exact "serializable"
  refine ⟨hmem.mpr (by decide), ?_, ?_⟩
  · rcases hval : txn_isolation_level_validator "serializable" with _ | _
    · rfl
    · exact absurd (hmem2.mp hval) (by decide)
  · rcases hval : (GetTxnIsolationLevel "serializable").isSome with _ | _
    · rfl
    · exact absurd (hmem2.mp (hiso2.mpr hval)) (by decide)

/-- C9: the slow lookup path accepts a remote response only when it carries
an index definition that passes the shape check: a response without a
definition, or whose definition fails the check, makes the check return
`false`, fires the warning log, and makes the lookup fail with the cache
unchanged (nothing cached); conversely a successful lookup implies the
response carried a definition passing the check. -/
theorem cache_rejects_malformed_response (chk : D → Bool) (resp : Option D)
    (insert : C → C) (cache : C) :
    (resp = none → (CheckIndexResponse chk resp).1 = false) ∧
    (∀ d, resp = some d → chk d = false → (CheckIndexResponse chk resp).1 = false) ∧
    ((CheckIndexResponse chk resp).1 = false →
      (CheckIndexResponse chk resp).2 = true ∧
      SlowLookup chk resp insert cache = (Status.err 1, cache)) ∧
    ((SlowLookup chk resp insert cache).1 = Status.ok →
      ∃ d, resp = some d ∧ chk d = true) := by
  refine ⟨?_, ?_, ?_, ?_⟩
  · rintro rfl
    rfl
  · rintro d rfl hchk
    simpa [CheckIndexResponse] using hchk
  · intro hfail
    have hc : ¬ ((CheckIndexResponse chk resp).1 = true) := by
      rw [hfail]
      exact Bool.false_ne_true
    refine ⟨?_, ?_⟩
    · show (!(CheckIndexResponse chk resp).1) = true
      rw [hfail]
      rfl
    · unfold SlowLookup
      rw [if_neg hc]
  · intro hok
    unfold SlowLookup at hok
    split at hok
    · rename_i hchk
      rcases resp with _ | d
      · simp [CheckIndexResponse] at hchk
      · exact ⟨d, rfl, by simpa [CheckIndexResponse] using hchk⟩
    · have hok' : Status.err 1 = Status.ok := hok
      exact absurd hok' (by decide)

/-- Witness for C9: over `D = Nat` with shape check "definition id is 5",
both a definition-less response and a response carrying the failing
definition 3 are rejected, logged, and leave the empty cache unchanged. -/
theorem cache_rejects_malformed_response_witness :
    (CheckIndexResponse (fun d : Nat => decide (d = 5)) none).1 = false ∧
    (CheckIndexResponse (fun d : Nat => decide (d = 5)) (some 3)).1 = false ∧
    (CheckIndexResponse (fun d : Nat => decide (d = 5)) (some 3)).2 = true ∧
    SlowLookup (fun d : Nat => decide (d = 5)) (some 3) (fun c => 9 :: c)
      ([] : List Nat) = (Status.err 1, []) := by
  obtain ⟨hnone, -, -, -⟩ :=
    cache_rejects_malformed_response (fun d : Nat => decide (d = 5)) none
      (fun c => 9 :: c) ([] : List Nat)
  obtain ⟨-, hsome, hfail, -⟩ :=
    cache_rejects_malformed_response (fun d : Nat => decide (d = 5)) (some 3)
      (fun c => 9 :: c) ([] : List Nat)
  have h1 := hnone rfl
  have h2 := hsome 3 rfl (by decide)
  have h3 := hfail h2
  exact ⟨h1, h2, h3.1, h3.2⟩

end DingoStore
